import Mathlib

/-!
Shallow embedding of clippy's `disallowed_methods` lint
(src/clippy_lints/src/disallowed_methods.rs).

The lint keeps a configured rule list (`conf_disallowed`) and a map
`disallowed : DefId → rule index` built once per crate by `check_crate`;
`check_expr` classifies each HIR expression, derives a callee `DefId`
for bare path expressions and for method calls, and looks it up.
External collaborators (name resolution `def_path_def_ids`,
`qpath_res`, `type_dependent_def_id`) are modelled as inputs:
the resolver is a field of `Ctx`, and the per-expression resolution
results are carried on the expression itself, as the lint only ever
observes their answers.
-/

/-- Symbol identity: `rustc_hir::def_id::DefId`, an opaque per-compilation
identifier; modelled as a natural number, compared only for equality. -/
abbrev DefId := Nat

/-- Source span; opaque to the lint, modelled as a natural number tag. -/
abbrev Span := Nat

/-- Which item a tuple-style constructor belongs to (`CtorOf`). -/
inductive CtorOf where
  | struct_
  | variant
  deriving DecidableEq, Repr

/-- `rustc_hir::def::CtorKind`: tuple-style (`Fn`) or unit-style (`Const`). -/
inductive CtorKind where
  | fn
  | const_
  deriving DecidableEq, Repr

/-- The definition kinds `check_expr` distinguishes: `DefKind::Fn`,
`DefKind::Ctor(_, _)`, `DefKind::AssocFn`, and everything else. -/
inductive DefKind where
  | fn
  | ctor (of : CtorOf) (k : CtorKind)
  | assocFn
  | otherKind
  deriving DecidableEq, Repr

/-- `rustc_hir::def::Res`, as far as the lint inspects it: either a
resolved definition with its kind and id, or any other resolution. -/
inductive Res where
  | def_ (k : DefKind) (id : DefId)
  | other
  deriving DecidableEq, Repr

/-- The expression shapes `check_expr` distinguishes. A path expression
carries the answer of `cx.qpath_res` for its qpath; a method call carries
the span of its method-name ident and the answer of
`type_dependent_def_id` (none when dispatch is unresolved). Everything
else — including `ExprKind::Call` itself, whose callee sub-expression is
visited separately — falls in `other`. -/
inductive ExprKind where
  | path (res : Res)
  | methodCall (nameSpan : Span) (typeDep : Option DefId)
  | other
  deriving DecidableEq, Repr

/-- A HIR expression node as `check_expr` sees it: its kind and its span. -/
structure Expr where
  kind : ExprKind
  span : Span
  deriving DecidableEq, Repr

/-- Modelled from the spec: `clippy_config::types::DisallowedPath`
(the `ConfiguredRule` of the spec, defined outside src/) is a configured
path string with an optional reason; `path()` and `reason()` are the
field accessors. -/
structure DisallowedPath where
  path : String
  reason : Option String
  deriving DecidableEq, Repr

/-- The lint pass state: the configured rule list and the `DefIdMap`
from identity to rule index, modelled as a function to `Option Nat`
(empty map = constantly `none`, insertion overwrites). -/
structure DisallowedMethods where
  conf_disallowed : List DisallowedPath
  disallowed : DefId → Option Nat

/-- `DisallowedMethods::new`: stores the configuration with an empty map. -/
def DisallowedMethods.new (conf : List DisallowedPath) : DisallowedMethods :=
  ⟨conf, fun _ => none⟩

/-- The compilation context as the lint uses it in `check_crate`:
`clippy_utils::def_path_def_ids` resolves a segment list to the ids it
denotes in this program. -/
structure Ctx where
  resolve : List String → List DefId

/-- One `DefIdMap` insertion: point update, overwriting any earlier value. -/
def insertId (m : DefId → Option Nat) (id : DefId) (index : Nat) :
    DefId → Option Nat :=
  fun k => if k = id then some index else m k

/-- `check_crate`: for each configured rule at position `index`, split its
path on "::" and insert every resolved id with value `index`. -/
def check_crate (cx : Ctx) (s : DisallowedMethods) : DisallowedMethods :=
  { s with
    disallowed :=
      s.conf_disallowed.enum.foldl
        (fun m ic =>
          (cx.resolve (ic.2.path.splitOn "::")).foldl
            (fun m id => insertId m id ic.1) m)
        s.disallowed }

/-- The classification step at the head of `check_expr`: a path expression
whose resolution is `Res::Def` of kind `Fn`, `Ctor(_, CtorKind::Fn)` or
`AssocFn` yields its id with the whole expression's span; a method call
with a type-dependent def id yields that id with the method-name span;
everything else returns. -/
def derive (e : Expr) : Option (DefId × Span) :=
  match e.kind with
  | .path res =>
    match res with
    | .def_ k id =>
      match k with
      | .fn => some (id, e.span)
      | .ctor _ .fn => some (id, e.span)
      | .assocFn => some (id, e.span)
      | _ => none
    | .other => none
  | .methodCall nameSpan typeDep =>
    match typeDep with
    | some id => some (id, nameSpan)
    | none => none
  | .other => none

/-- The guard of the path arm as a predicate: `DefKind::Fn`,
`DefKind::Ctor(_, CtorKind::Fn)` or `DefKind::AssocFn`. -/
def fnLike : DefKind → Bool
  | .fn => true
  | .ctor _ .fn => true
  | .assocFn => true
  | _ => false

/-- The diagnostic handed to `span_lint_and_then`: primary span, message,
and the optional note added by the closure when the rule has a reason. -/
structure Diagnostic where
  span : Span
  msg : String
  note : Option String
  deriving DecidableEq, Repr

/-- Outcome of one `check_expr` call: no lint, one emitted diagnostic, or
a panic (the indexing `self.conf_disallowed[index]` out of bounds). -/
inductive CheckResult where
  | noDiag
  | diag (d : Diagnostic)
  | panic_
  deriving DecidableEq, Repr

/-- `check_expr`: classify the expression, look the derived id up in
`disallowed`; on a hit index `conf_disallowed` and emit one diagnostic
whose message quotes the rule's configured path and whose note is the
rule's reason when present. The state is threaded unchanged, mirroring
the `&mut self` receiver that is only read. -/
def check_expr (s : DisallowedMethods) (e : Expr) :
    DisallowedMethods × CheckResult :=
  match derive e with
  | none => (s, .noDiag)
  | some (id, span) =>
    match s.disallowed id with
    | none => (s, .noDiag)
    | some index =>
      match s.conf_disallowed[index]? with
      | none => (s, .panic_)
      | some conf =>
        (s, .diag ⟨span, "use of a disallowed method `" ++ conf.path ++ "`",
                   conf.reason⟩)

/-! Concrete instances used to exercise the theorems. -/

/-- A resolver that resolves every segment list to the single id 5. -/
def cx0 : Ctx := ⟨fun _ => [5]⟩

/-- Two configured rules; under `cx0` both paths resolve to id 5. -/
def rules0 : List DisallowedPath := [⟨"a::f", none⟩, ⟨"b::g", some "why"⟩]

/-- The lint state after `check_crate` on `rules0` under `cx0`. -/
def S0 : DisallowedMethods := check_crate cx0 (DisallowedMethods.new rules0)

/-- A bare path expression resolving to `DefKind::Fn` with id 5. -/
def e0 : Expr := ⟨.path (.def_ .fn 5), 7⟩

/-- A method call whose type-dependent def id is 5; name span 3. -/
def eM : Expr := ⟨.methodCall 3 (some 5), 7⟩

/-- A method call resolving to id 9, which no rule resolves to. -/
def e9 : Expr := ⟨.methodCall 3 (some 9), 7⟩

/-- A method call with unresolved dispatch (`type_dependent_def_id` none). -/
def eU : Expr := ⟨.methodCall 3 none, 7⟩

/-! Lemma layer: `check_crate` as insertion of a flat pair list. -/

/-- All `(id, rule index)` pairs inserted by `check_crate` for an
enumerated rule list, in insertion order. -/
def rulePairs (cx : Ctx) (L : List (Nat × DisallowedPath)) :
    List (DefId × Nat) :=
  L.flatMap fun ic => (cx.resolve (ic.2.path.splitOn "::")).map fun id => (id, ic.1)

/-- Sequential insertion of a pair list into the map. -/
def insertAll (m : DefId → Option Nat) (ps : List (DefId × Nat)) :
    DefId → Option Nat :=
  ps.foldl (fun m p => insertId m p.1 p.2) m

theorem insertAll_append (m : DefId → Option Nat) (ps qs : List (DefId × Nat)) :
    insertAll m (ps ++ qs) = insertAll (insertAll m ps) qs :=
  List.foldl_append _ _ _ _

theorem check_crate_eq (cx : Ctx) (s : DisallowedMethods) :
    check_crate cx s =
      ⟨s.conf_disallowed,
       insertAll s.disallowed (rulePairs cx s.conf_disallowed.enum)⟩ := by
  have key : ∀ (L : List (Nat × DisallowedPath)) (m : DefId → Option Nat),
      L.foldl
        (fun m ic =>
          (cx.resolve (ic.2.path.splitOn "::")).foldl
            (fun m id => insertId m id ic.1) m) m
        = insertAll m (rulePairs cx L) := by
    intro L
    induction L with
    | nil => intro m; rfl
    | cons a L ih =>
      intro m
      have hinner :
          (cx.resolve (a.2.path.splitOn "::")).foldl
              (fun m id => insertId m id a.1) m
            = insertAll m ((cx.resolve (a.2.path.splitOn "::")).map
                fun id => (id, a.1)) := by
        unfold insertAll
        rw [List.foldl_map]
      simp only [List.foldl_cons, rulePairs, List.flatMap_cons, ih,
        insertAll_append, hinner]
  unfold check_crate
  rw [key]

theorem insertAll_of_not_mem (m : DefId → Option Nat)
    (ps : List (DefId × Nat)) (k : DefId) (h : ∀ w, (k, w) ∉ ps) :
    insertAll m ps k = m k := by
  induction ps generalizing m with
  | nil => rfl
  | cons p ps ih =>
    have hk : k ≠ p.1 := fun he => h p.2 (by rw [he]; exact List.mem_cons_self _ _)
    have : insertId m p.1 p.2 k = m k := by simp [insertId, hk]
    simp only [insertAll, List.foldl_cons]
    rw [show (List.foldl (fun m p => insertId m p.1 p.2) (insertId m p.1 p.2) ps)
          = insertAll (insertId m p.1 p.2) ps from rfl]
    rw [ih (insertId m p.1 p.2) (fun w hw => h w (List.mem_cons_of_mem _ hw)), this]

theorem insertAll_eq_some (m : DefId → Option Nat)
    (ps : List (DefId × Nat)) (k : DefId) (v : Nat)
    (h : insertAll m ps k = some v) : (k, v) ∈ ps ∨ m k = some v := by
  induction ps generalizing m with
  | nil => exact Or.inr h
  | cons p ps ih =>
    rcases ih (insertId m p.1 p.2) h with h1 | h2
    · exact Or.inl (List.mem_cons_of_mem _ h1)
    · by_cases hk : k = p.1
      · left
        have : p.2 = v := by simpa [insertId, hk] using h2
        rw [hk, ← this]
        exact List.mem_cons_self _ _
      · right
        simpa [insertId, hk] using h2

theorem insertAll_congr_at (m₁ m₂ : DefId → Option Nat)
    (ps : List (DefId × Nat)) (k : DefId) (h : m₁ k = m₂ k) :
    insertAll m₁ ps k = insertAll m₂ ps k := by
  induction ps generalizing m₁ m₂ with
  | nil => exact h
  | cons p ps ih =>
    refine ih _ _ ?_
    by_cases hk : k = p.1 <;> simp [insertId, hk, h]

theorem insertAll_of_mem_unique (m : DefId → Option Nat)
    (ps : List (DefId × Nat)) (k : DefId) (v : Nat)
    (hmem : (k, v) ∈ ps) (huniq : ∀ w, (k, w) ∈ ps → w = v) :
    insertAll m ps k = some v := by
  induction ps generalizing m with
  | nil => cases hmem
  | cons p ps ih =>
    by_cases hc : ∀ w, (k, w) ∉ ps
    · have hp : p = (k, v) := by
        rcases List.mem_cons.mp hmem with h | h
        · exact h.symm
        · exact absurd h (hc v)
      simp only [insertAll, List.foldl_cons]
      rw [show (List.foldl (fun m p => insertId m p.1 p.2) (insertId m p.1 p.2) ps)
            = insertAll (insertId m p.1 p.2) ps from rfl]
      rw [insertAll_of_not_mem _ _ _ hc, hp]
      simp [insertId]
    · push_neg at hc
      obtain ⟨w, hw⟩ := hc
      have hwv : w = v := huniq w (List.mem_cons_of_mem _ hw)
      subst hwv
      exact ih _ hw (fun u hu => huniq u (List.mem_cons_of_mem _ hu))

theorem insertAll_idem (m : DefId → Option Nat) (ps : List (DefId × Nat)) :
    insertAll (insertAll m ps) ps = insertAll m ps := by
  funext k
  by_cases hc : ∀ w, (k, w) ∉ ps
  · rw [insertAll_of_not_mem _ _ _ hc, insertAll_of_not_mem _ _ _ hc]
  · push_neg at hc
    obtain ⟨w, hw⟩ := hc
    have step : ∀ (m₁ m₂ : DefId → Option Nat) (qs : List (DefId × Nat)),
        (k, w) ∈ qs → insertAll m₁ qs k = insertAll m₂ qs k := by
      intro m₁ m₂ qs hmem
      induction qs generalizing m₁ m₂ with
      | nil => cases hmem
      | cons p qs ih =>
        have e1 : insertAll m₁ (p :: qs) k = insertAll (insertId m₁ p.1 p.2) qs k := rfl
        have e2 : insertAll m₂ (p :: qs) k = insertAll (insertId m₂ p.1 p.2) qs k := rfl
        rw [e1, e2]
        rcases List.mem_cons.mp hmem with h | h
        · refine insertAll_congr_at _ _ _ _ ?_
          have hk1 : k = p.1 := by rw [← h]
          simp [insertId, hk1]
        · exact ih _ _ h
    exact step _ _ ps hw

theorem mem_rulePairs (cx : Ctx) (L : List (Nat × DisallowedPath))
    (k : DefId) (w : Nat) :
    (k, w) ∈ rulePairs cx L ↔
      ∃ c, (w, c) ∈ L ∧ k ∈ cx.resolve (c.path.splitOn "::") := by
  simp only [rulePairs, List.mem_flatMap, List.mem_map]
  constructor
  · rintro ⟨ic, hic, id, hid, heq⟩
    obtain ⟨h1, h2⟩ := Prod.mk.injEq .. ▸ heq
    exact ⟨ic.2, by rw [← h2]; exact hic, h1 ▸ hid⟩
  · rintro ⟨c, hc, hk⟩
    exact ⟨(w, c), hc, k, hk, rfl⟩

theorem insertAll_eq_none (m : DefId → Option Nat)
    (ps : List (DefId × Nat)) (k : DefId)
    (h : insertAll m ps k = none) : m k = none ∧ ∀ w, (k, w) ∉ ps := by
  induction ps generalizing m with
  | nil => exact ⟨h, fun w hw => (List.not_mem_nil _ hw)⟩
  | cons p ps ih =>
    obtain ⟨hm, hnot⟩ := ih (insertId m p.1 p.2) h
    have hk : k ≠ p.1 := by
      intro he
      rw [show insertId m p.1 p.2 k = some p.2 by simp [insertId, he]] at hm
      cases hm
    constructor
    · simpa [insertId, hk] using hm
    · intro w hw
      rcases List.mem_cons.mp hw with h1 | h1
      · exact hk (congrArg Prod.fst h1)
      · exact hnot w h1

theorem rulePairs_append (cx : Ctx) (L₁ L₂ : List (Nat × DisallowedPath)) :
    rulePairs cx (L₁ ++ L₂) = rulePairs cx L₁ ++ rulePairs cx L₂ :=
  List.flatMap_append _ _ _

theorem build_conf_eq (cx : Ctx) (rules : List DisallowedPath) :
    (check_crate cx (DisallowedMethods.new rules)).conf_disallowed = rules := by
  rw [check_crate_eq]
  rfl

theorem build_lookup (cx : Ctx) (rules : List DisallowedPath)
    (id : DefId) (i : Nat)
    (h : (check_crate cx (DisallowedMethods.new rules)).disallowed id = some i) :
    ∃ conf, rules[i]? = some conf ∧ id ∈ cx.resolve (conf.path.splitOn "::") := by
  rw [check_crate_eq] at h
  have h' : insertAll (fun _ => none) (rulePairs cx rules.enum) id = some i := h
  rcases insertAll_eq_some _ _ _ _ h' with hmem | hnone
  · rcases (mem_rulePairs cx rules.enum id i).mp hmem with ⟨c, hcmem, hcres⟩
    exact ⟨c, List.mk_mem_enum_iff_getElem?.mp hcmem, hcres⟩
  · cases hnone

theorem build_lookup_last (cx : Ctx) (rules : List DisallowedPath)
    (j : Nat) (conf : DisallowedPath) (id : DefId)
    (hj : rules[j]? = some conf)
    (hid : id ∈ cx.resolve (conf.path.splitOn "::"))
    (hlast : ∀ l cl, j < l → rules[l]? = some cl →
      id ∉ cx.resolve (cl.path.splitOn "::")) :
    (check_crate cx (DisallowedMethods.new rules)).disallowed id = some j := by
  obtain ⟨hjlen, hjget⟩ := List.getElem?_eq_some.mp hj
  rw [check_crate_eq]
  show insertAll (fun _ => none) (rulePairs cx rules.enum) id = some j
  have hdecomp : rules.enum
      = (rules.take j).enum
        ++ ((j, conf) :: List.enumFrom (j + 1) (rules.drop (j + 1))) := by
    conv_lhs => rw [← List.take_append_drop j rules]
    rw [List.enum_append, List.drop_eq_getElem_cons hjlen, hjget,
      List.length_take, Nat.min_eq_left (Nat.le_of_lt hjlen),
      List.enumFrom_cons]
  rw [hdecomp, rulePairs_append, insertAll_append]
  have hcons : rulePairs cx
        ((j, conf) :: List.enumFrom (j + 1) (rules.drop (j + 1)))
      = ((cx.resolve (conf.path.splitOn "::")).map fun i => (i, j))
        ++ rulePairs cx (List.enumFrom (j + 1) (rules.drop (j + 1))) := by
    simp [rulePairs, List.flatMap_cons]
  rw [hcons, insertAll_append]
  have hnotail : ∀ w,
      (id, w) ∉ rulePairs cx (List.enumFrom (j + 1) (rules.drop (j + 1))) := by
    intro w hw
    rcases (mem_rulePairs _ _ _ _).mp hw with ⟨c, hcmem, hcres⟩
    rcases List.mk_mem_enumFrom_iff_le_and_getElem?_sub.mp hcmem with ⟨hle, hget⟩
    rw [List.getElem?_drop] at hget
    have hw' : j + 1 + (w - (j + 1)) = w := by omega
    rw [hw'] at hget
    exact hlast w c (by omega) hget hcres
  rw [insertAll_of_not_mem _ _ _ hnotail]
  refine insertAll_of_mem_unique _ _ _ _ ?_ ?_
  · exact List.mem_map.mpr ⟨id, hid, rfl⟩
  · intro w hw
    rcases List.mem_map.mp hw with ⟨a, _, heq⟩
    exact ((Prod.mk.injEq .. ▸ heq).2).symm

/-! Inversion and unfolding lemmas for `check_expr` and `derive`. -/

theorem check_expr_hit (s : DisallowedMethods) (e : Expr) (id : DefId)
    (sp : Span) (i : Nat) (conf : DisallowedPath)
    (h1 : derive e = some (id, sp)) (h2 : s.disallowed id = some i)
    (h3 : s.conf_disallowed[i]? = some conf) :
    check_expr s e =
      (s, .diag ⟨sp, "use of a disallowed method `" ++ conf.path ++ "`",
                 conf.reason⟩) := by
  unfold check_expr
  rw [h1]
  dsimp only
  rw [h2]
  dsimp only
  rw [h3]

theorem derive_path_span (e : Expr) (res : Res) (id : DefId) (sp : Span)
    (hk : e.kind = .path res) (hd : derive e = some (id, sp)) :
    sp = e.span := by
  unfold derive at hd
  rw [hk] at hd
  rcases res with ⟨k, i⟩ | _
  · rcases k with _ | ⟨o, ck⟩ | _ | _
    · exact (Prod.mk.injEq .. ▸ Option.some.inj hd).2.symm
    · rcases ck with _ | _
      · exact (Prod.mk.injEq .. ▸ Option.some.inj hd).2.symm
      · cases hd
    · exact (Prod.mk.injEq .. ▸ Option.some.inj hd).2.symm
    · cases hd
  · cases hd

theorem derive_method_span (e : Expr) (nsp : Span) (td : Option DefId)
    (id : DefId) (sp : Span)
    (hk : e.kind = .methodCall nsp td) (hd : derive e = some (id, sp)) :
    sp = nsp := by
  unfold derive at hd
  rw [hk] at hd
  rcases td with _ | j
  · cases hd
  · exact (Prod.mk.injEq .. ▸ Option.some.inj hd).2.symm

theorem check_expr_diag_derive (s : DisallowedMethods) (e : Expr)
    (d : Diagnostic) (h : (check_expr s e).2 = .diag d) :
    ∃ id, derive e = some (id, d.span) := by
  unfold check_expr at h
  rcases hd : derive e with _ | ⟨id, sp⟩ <;> rw [hd] at h <;> dsimp only at h
  · cases h
  · rcases h2 : s.disallowed id with _ | i <;> rw [h2] at h <;> dsimp only at h
    · cases h
    · rcases h3 : s.conf_disallowed[i]? with _ | conf <;> rw [h3] at h <;>
        dsimp only at h
      · cases h
      · refine ⟨id, ?_⟩
        have : d.span = sp := by
          cases CheckResult.diag.inj h
          rfl
        rw [this]

/-! Claim theorems. -/

/-- Claim C2: for every expression whose derived callee identity is absent
from the denylist index, `check_expr` produces no diagnostic; and with an
empty configured rule list no expression at all produces a diagnostic. -/
theorem absent_identity_no_diagnostic (cx : Ctx) (s : DisallowedMethods)
    (e e' : Expr) (id : DefId) (sp : Span)
    (hd : derive e = some (id, sp)) (habs : s.disallowed id = none) :
    (check_expr s e).2 = .noDiag
    ∧ (check_expr (check_crate cx (DisallowedMethods.new [])) e').2 = .noDiag := by
  constructor
  · unfold check_expr
    rw [hd]
    dsimp only
    rw [habs]
  · have hempty : ∀ k,
        (check_crate cx (DisallowedMethods.new [])).disallowed k = none := by
      intro k
      rw [check_crate_eq]
      rfl
    unfold check_expr
    rcases hd' : derive e' with _ | ⟨id', sp'⟩
    · rfl
    · dsimp only
      rw [hempty id']

/-- Witness for C2: under `cx0`/`rules0`, the method call `e9` resolves to
id 9, which no rule maps, and is not diagnosed; with an empty rule list
even `e0` is not diagnosed. -/
theorem absent_identity_no_diagnostic_witness :
    S0.disallowed 9 = none
    ∧ (check_expr S0 e9).2 = .noDiag
    ∧ (check_expr (check_crate cx0 (DisallowedMethods.new []))
        e0).2 = .noDiag :=
  ⟨by decide,
   absent_identity_no_diagnostic cx0 S0 e9 e0 9 3 (by decide) (by decide)⟩

/-- Claim C3: the build inserts every identity a rule's path resolves to
(any identity resolved by rule `j'` is a key of the index); every entry of
the index stores a rule index that is in bounds for the configured list
and its key is among the ids that rule's path resolves to; and
consequently `check_expr`'s indexing of `conf_disallowed` never goes out
of bounds (never panics). -/
theorem index_entries_from_config_and_in_bounds (cx : Ctx)
    (rules : List DisallowedPath) (id id₂ : DefId) (i j' : Nat)
    (cj : DisallowedPath) (e : Expr)
    (h : (check_crate cx (DisallowedMethods.new rules)).disallowed id = some i)
    (hj : rules[j']? = some cj)
    (hid₂ : id₂ ∈ cx.resolve (cj.path.splitOn "::")) :
    i < rules.length
    ∧ id ∈ cx.resolve ((rules.getD i ⟨"", none⟩).path.splitOn "::")
    ∧ ((check_crate cx (DisallowedMethods.new rules)).disallowed id₂).isSome
        = true
    ∧ (check_expr (check_crate cx (DisallowedMethods.new rules)) e).2
        ≠ .panic_ := by
  obtain ⟨conf, hconf, hres⟩ := build_lookup cx rules id i h
  have hins : ((check_crate cx
      (DisallowedMethods.new rules)).disallowed id₂).isSome = true := by
    rcases hni : (check_crate cx (DisallowedMethods.new rules)).disallowed id₂
      with _ | v
    · exfalso
      rw [check_crate_eq] at hni
      have hni' : insertAll (fun _ => none)
          (rulePairs cx rules.enum) id₂ = none := hni
      obtain ⟨-, hnot⟩ := insertAll_eq_none _ _ _ hni'
      exact hnot j' ((mem_rulePairs cx rules.enum id₂ j').mpr
        ⟨cj, List.mk_mem_enum_iff_getElem?.mpr hj, hid₂⟩)
    · rfl
  have hgd : rules.getD i ⟨"", none⟩ = conf := by
    rw [List.getD_eq_getElem?_getD, hconf]
    rfl
  refine ⟨(List.getElem?_eq_some.mp hconf).1, hgd ▸ hres, hins, ?_⟩
  unfold check_expr
  rcases hd : derive e with _ | ⟨id', sp'⟩
  · intro hc
    cases hc
  · dsimp only
    rcases h2 : (check_crate cx (DisallowedMethods.new rules)).disallowed id'
      with _ | i'
    · intro hc
      cases hc
    · dsimp only
      obtain ⟨conf', hconf', _⟩ := build_lookup cx rules id' i' h2
      have hc' : (check_crate cx
          (DisallowedMethods.new rules)).conf_disallowed[i']? = some conf' := by
        rw [build_conf_eq]
        exact hconf'
      rw [hc']
      intro hc
      cases hc

/-- Witness for C3: in `S0` the id 5 maps to rule index 1, which is in
bounds of `rules0`, 5 is resolved from the path "b::g", id 5 resolved by
rule 1 is indeed a key of the index, and checking `e0` does not panic. -/
theorem index_entries_from_config_and_in_bounds_witness :
    S0.disallowed 5 = some 1
    ∧ 1 < rules0.length
    ∧ 5 ∈ cx0.resolve ((rules0.getD 1 ⟨"", none⟩).path.splitOn "::")
    ∧ (S0.disallowed 5).isSome = true
    ∧ (check_expr S0 e0).2 ≠ .panic_ :=
  ⟨by decide,
   index_entries_from_config_and_in_bounds cx0 rules0 5 5 1 1
     ⟨"b::g", some "why"⟩ e0 (by decide) (by decide) (by decide)⟩

/-- Claim C4: whenever `check_expr` emits a diagnostic, a direct-reference
(path) expression gets the whole expression's span, while a method call
gets only the method-name sub-span. -/
theorem diag_span_by_call_form (s : DisallowedMethods) (e : Expr)
    (d : Diagnostic) (res : Res) (nsp : Span) (td : Option DefId)
    (h : (check_expr s e).2 = .diag d) :
    (e.kind = .path res → d.span = e.span)
    ∧ (e.kind = .methodCall nsp td → d.span = nsp) := by
  obtain ⟨id, hd⟩ := check_expr_diag_derive s e d h
  exact ⟨fun hk => derive_path_span e res id d.span hk hd,
         fun hk => derive_method_span e nsp td id d.span hk hd⟩

/-- Witness for C4: the method call `eM` (whole span 7, name span 3) is
diagnosed with span 3, the method-name sub-span only. -/
theorem diag_span_by_call_form_witness :
    (check_expr S0 eM).2 =
      .diag ⟨3, "use of a disallowed method `b::g`", some "why"⟩
    ∧ ((eM.kind = .path (.def_ .fn 5) →
          (⟨3, "use of a disallowed method `b::g`", some "why"⟩ :
            Diagnostic).span = eM.span)
      ∧ (eM.kind = .methodCall 3 (some 5) →
          (⟨3, "use of a disallowed method `b::g`", some "why"⟩ :
            Diagnostic).span = 3)) :=
  ⟨by decide,
   diag_span_by_call_form S0 eM
     ⟨3, "use of a disallowed method `b::g`", some "why"⟩
     (.def_ .fn 5) 3 (some 5) (by decide)⟩

/-- Claim C5: on a hit the emitted diagnostic's message quotes the matched
rule's configured path string, and its note is exactly the rule's optional
reason: attached verbatim when present, absent otherwise. -/
theorem message_quotes_config_path_and_note_is_reason
    (s : DisallowedMethods) (e : Expr) (id : DefId) (sp : Span) (i : Nat)
    (conf : DisallowedPath)
    (h1 : derive e = some (id, sp)) (h2 : s.disallowed id = some i)
    (h3 : s.conf_disallowed[i]? = some conf) :
    (check_expr s e).2 =
      .diag ⟨sp, "use of a disallowed method `" ++ conf.path ++ "`",
             conf.reason⟩ := by
  rw [check_expr_hit s e id sp i conf h1 h2 h3]

/-- Witness for C5: the hit on `eM` against rule 1 of `rules0` produces
the message quoting "b::g" and the note "why" verbatim. -/
theorem message_quotes_config_path_and_note_is_reason_witness :
    derive eM = some (5, 3)
    ∧ S0.disallowed 5 = some 1
    ∧ (check_expr S0 eM).2 =
        .diag ⟨3, "use of a disallowed method `b::g`", some "why"⟩ :=
  ⟨by decide, by decide,
   message_quotes_config_path_and_note_is_reason S0 eM 5 3 1
     ⟨"b::g", some "why"⟩ (by decide) (by decide) (by decide)⟩

/-- Claim C6: a method call whose type-dependent def id is unavailable
(`type_dependent_def_id` returned none) is skipped: no match is attempted
and no diagnostic is produced. -/
theorem unresolved_dispatch_skipped (s : DisallowedMethods) (e : Expr)
    (nsp : Span) (hk : e.kind = .methodCall nsp none) :
    (check_expr s e).2 = .noDiag := by
  have hd : derive e = none := by
    unfold derive
    rw [hk]
  unfold check_expr
  rw [hd]

/-- Witness for C6: the unresolved method call `eU` yields no diagnostic
even though `S0` denylists id 5. -/
theorem unresolved_dispatch_skipped_witness :
    eU.kind = .methodCall 3 none ∧ (check_expr S0 eU).2 = .noDiag :=
  ⟨by decide, unresolved_dispatch_skipped S0 eU 3 (by decide)⟩

/-- Claim C1, counterexample: under `cx0` both configured paths of
`rules0` resolve to id 5, so id 5 is among rule 0's resolved identities,
yet the single diagnostic produced at the call site `e0` quotes rule 1's
path "b::g", not rule 0's path "a::f" — the diagnostic does not reference
rule 0. -/
theorem collision_diagnostic_not_earlier_rule :
    rules0[0]? = some ⟨"a::f", none⟩
    ∧ 5 ∈ cx0.resolve ("a::f".splitOn "::")
    ∧ derive e0 = some (5, 7)
    ∧ (check_expr S0 e0).2 =
        .diag ⟨7, "use of a disallowed method `b::g`", some "why"⟩
    ∧ "use of a disallowed method `b::g`"
        ≠ "use of a disallowed method `a::f`" :=
  ⟨by decide, by decide, by decide, by decide, by decide⟩

/-- Claim C1 (amended): a visited call site whose derived identity is one
of a configured rule's resolved identities produces exactly one
diagnostic, and the diagnostic references the last configured rule whose
path resolves to that identity — which is the rule itself whenever no
later rule also resolves to it. -/
theorem match_reports_last_resolving_rule (cx : Ctx)
    (rules : List DisallowedPath) (j : Nat) (conf : DisallowedPath)
    (id : DefId) (sp : Span) (e : Expr)
    (hj : rules[j]? = some conf)
    (hid : id ∈ cx.resolve (conf.path.splitOn "::"))
    (hlast : ∀ l cl, j < l → rules[l]? = some cl →
      id ∉ cx.resolve (cl.path.splitOn "::"))
    (hd : derive e = some (id, sp)) :
    (check_expr (check_crate cx (DisallowedMethods.new rules)) e).2 =
      .diag ⟨sp, "use of a disallowed method `" ++ conf.path ++ "`",
             conf.reason⟩ := by
  have hidx := build_lookup_last cx rules j conf id hj hid hlast
  have hconf : (check_crate cx
      (DisallowedMethods.new rules)).conf_disallowed[j]? = some conf := by
    rw [build_conf_eq]
    exact hj
  rw [check_expr_hit _ _ _ _ _ _ hd hidx hconf]

/-- Witness for C1 (amended): rule 1 is the last rule of `rules0`
resolving id 5, and the call site `e0` is diagnosed once, quoting rule 1's
path and reason. -/
theorem match_reports_last_resolving_rule_witness :
    rules0[1]? = some ⟨"b::g", some "why"⟩
    ∧ 5 ∈ cx0.resolve ("b::g".splitOn "::")
    ∧ (check_expr S0 e0).2 =
        .diag ⟨7, "use of a disallowed method `b::g`", some "why"⟩ :=
  ⟨by decide, by decide,
   match_reports_last_resolving_rule cx0 rules0 1 ⟨"b::g", some "why"⟩ 5 7 e0
     (by decide) (by decide)
     (by
       intro l cl hl hg
       have hnone : rules0[l]? = none :=
         List.getElem?_eq_none (by simp [rules0]; omega)
       rw [hnone] at hg
       cases hg)
     (by decide)⟩

/-- Claim C7: when two distinct configured rules resolve to the same
identity, the build does not fail; the later rule's index overwrites the
earlier one's entry, so the identity maps to the later index and not to
the earlier one (last-write-wins in configuration order). -/
theorem collision_last_write_wins (cx : Ctx)
    (rules : List DisallowedPath) (i j : Nat) (ci cj : DisallowedPath)
    (id : DefId)
    (_hi : rules[i]? = some ci) (hj : rules[j]? = some cj) (hij : i < j)
    (_hidi : id ∈ cx.resolve (ci.path.splitOn "::"))
    (hidj : id ∈ cx.resolve (cj.path.splitOn "::"))
    (hlast : ∀ l cl, j < l → rules[l]? = some cl →
      id ∉ cx.resolve (cl.path.splitOn "::")) :
    (check_crate cx (DisallowedMethods.new rules)).disallowed id = some j
    ∧ (check_crate cx (DisallowedMethods.new rules)).disallowed id
        ≠ some i := by
  have h := build_lookup_last cx rules j cj id hj hidj hlast
  refine ⟨h, ?_⟩
  rw [h]
  intro hc
  have := Option.some.inj hc
  omega

/-- Witness for C7: rules 0 and 1 of `rules0` both resolve to id 5 under
`cx0`; after the build, id 5 maps to index 1 and not 0. -/
theorem collision_last_write_wins_witness :
    rules0[0]? = some ⟨"a::f", none⟩
    ∧ rules0[1]? = some ⟨"b::g", some "why"⟩
    ∧ S0.disallowed 5 = some 1
    ∧ S0.disallowed 5 ≠ some 0 :=
  ⟨by decide, by decide,
   collision_last_write_wins cx0 rules0 0 1 ⟨"a::f", none⟩
     ⟨"b::g", some "why"⟩ 5 (by decide) (by decide) (by decide) (by decide)
     (by decide)
     (by
       intro l cl hl hg
       have hnone : rules0[l]? = none :=
         List.getElem?_eq_none (by simp [rules0]; omega)
       rw [hnone] at hg
       cases hg)⟩

/-- Claim C8: the index build is idempotent: running `check_crate` a
second time on its own output (same context, same configuration) yields
exactly the same state, key-to-rule-index map included. -/
theorem check_crate_idempotent (cx : Ctx) (s : DisallowedMethods) :
    check_crate cx (check_crate cx s) = check_crate cx s := by
  rw [check_crate_eq cx s, check_crate_eq cx _]
  dsimp only
  rw [insertAll_idem]

/-- Claim C9: `check_expr` never mutates the lint state: the returned
state has the same configured rule list and the same index map as the
input state, on every expression. -/
theorem check_expr_no_state_mutation (s : DisallowedMethods) (e : Expr) :
    (check_expr s e).1.conf_disallowed = s.conf_disallowed
    ∧ (check_expr s e).1.disallowed = s.disallowed := by
  have h : (check_expr s e).1 = s := by
    unfold check_expr
    rcases hd : derive e with _ | ⟨id, sp⟩
    · rfl
    · dsimp only
      rcases h2 : s.disallowed id with _ | i
      · rfl
      · dsimp only
        rcases h3 : s.conf_disallowed[i]? with _ | conf <;> rfl
  rw [h]
  exact ⟨rfl, rfl⟩

/-- Claim C10: a bare path expression resolving to a denylisted plain
function, tuple-style constructor, or associated function is diagnosed by
the direct-reference branch purely from its resolved definition kind; the
expression need not be (and here is not marked as) a callee of any call. -/
theorem bare_path_reference_diagnosed (s : DisallowedMethods) (e : Expr)
    (k : DefKind) (id : DefId) (i : Nat) (conf : DisallowedPath)
    (hk : e.kind = .path (.def_ k id)) (hfn : fnLike k = true)
    (h2 : s.disallowed id = some i)
    (h3 : s.conf_disallowed[i]? = some conf) :
    (check_expr s e).2 =
      .diag ⟨e.span, "use of a disallowed method `" ++ conf.path ++ "`",
             conf.reason⟩ := by
  have hd : derive e = some (id, e.span) := by
    unfold derive
    rw [hk]
    rcases k with _ | ⟨o, ck⟩ | _ | _
    · rfl
    · rcases ck with _ | _
      · rfl
      · exact Bool.noConfusion hfn
    · rfl
    · exact Bool.noConfusion hfn
  rw [check_expr_hit s e id e.span i conf hd h2 h3]

/-- Witness for C10: `e0` is a bare reference to the denylisted function
with id 5 (it is not a call expression) and is diagnosed with the whole
expression's span. -/
theorem bare_path_reference_diagnosed_witness :
    e0.kind = .path (.def_ .fn 5)
    ∧ fnLike .fn = true
    ∧ (check_expr S0 e0).2 =
        .diag ⟨7, "use of a disallowed method `b::g`", some "why"⟩ :=
  ⟨by decide, by decide,
   bare_path_reference_diagnosed S0 e0 .fn 5 1 ⟨"b::g", some "why"⟩
     (by decide) (by decide) (by decide) (by decide)⟩
